import Mathlib

/-!
Shallow embedding of the branch-management layer of the `jj` CLI
(`src/commands/branch.rs`), together with the external-collaborator
interfaces it consumes (commit store, view, glob matching, revset walking),
and proofs of the specified properties.

Commit identifiers are opaque; we embed them as `Nat`.  The ancestry /
reachability oracle of the commit graph is passed in as an explicit function
argument, mirroring the spec's treatment of the commit store as an external
collaborator.  Stateful command handlers are embedded as pure functions from
the current view to a pair of (emitted UI events, either an error or the new
view); the single `Event.transaction` marker corresponds to the
`start_transaction ... tx.finish` block committing all staged changes
at once.
-/

namespace Spec2Proof

/-- Opaque, totally ordered commit identifier (owned by the commit graph). -/
abbrev CommitId := Nat

/-- The `RefTarget` tagged union from the operation store: a branch points
either at a single commit or at an unresolved conflict of concurrent moves. -/
inductive RefTarget where
  | Normal (id : CommitId)
  | Conflict (removes : List CommitId) (adds : List CommitId)
deriving DecidableEq

/-- Modelled from the spec: `RefTarget::adds` lives in the library crate
(`op_store`), not under `src/`; per §4.1 the operative commit set of a
`Normal` target is the singleton of its commit and of a `Conflict` target is
its `adds` sequence. -/
def RefTarget.adds : RefTarget → List CommitId
  | .Normal id => [id]
  | .Conflict _ adds => adds

/-- A branch's local copy (`none` means no local copy) plus the map from
remote name to that remote's target, embedded as an association list with
unique keys. -/
structure BranchTarget where
  local_target : Option RefTarget
  remote_targets : List (String × RefTarget)
deriving DecidableEq

/-- `BranchTarget::default()`: no local target, no remote targets. -/
instance : Inhabited BranchTarget := ⟨⟨none, []⟩⟩

/-- The view's branch map: branch name to `BranchTarget`, embedded as an
association list with unique keys. -/
abbrev View := List (String × BranchTarget)

/-- Association-list lookup of the first entry with the given key. -/
def lookupA {α : Type} : List (String × α) → String → Option α
  | [], _ => none
  | p :: rest, k => if p.1 = k then some p.2 else lookupA rest k

/-- Association-list insert-or-replace for the given key. -/
def insertA {α : Type} : List (String × α) → String → α → List (String × α)
  | [], k, v => [(k, v)]
  | p :: rest, k, v => if p.1 = k then (k, v) :: rest else p :: insertA rest k v

/-- Association-list removal of every entry with the given key. -/
def eraseA {α : Type} : List (String × α) → String → List (String × α)
  | [], _ => []
  | p :: rest, k => if p.1 = k then eraseA rest k else p :: eraseA rest k

/-- Modelled from the spec: `View::get_branch` (library crate, not under
`src/`) returns the branch's whole entry, if the branch exists in any form. -/
def View.get_branch (view : View) (name : String) : Option BranchTarget :=
  lookupA view name

/-- Modelled from the spec: `View::get_local_branch` (library crate, not
under `src/`) returns the branch's local target, if any. -/
def View.get_local_branch (view : View) (name : String) : Option RefTarget :=
  (lookupA view name).bind (fun bt => bt.local_target)

/-- Modelled from the spec: `set_local_branch` on the transaction's mutable
view (library crate, not under `src/`) sets the branch's local target,
creating the entry when the branch did not exist. -/
def View.set_local_branch (view : View) (name : String) (target : RefTarget) : View :=
  match lookupA view name with
  | some bt => insertA view name { bt with local_target := some target }
  | none => insertA view name { local_target := some target, remote_targets := [] }

/-- Modelled from the spec: `remove_local_branch` (library crate, not under
`src/`) clears the branch's local target while keeping its remote targets;
per the §3 invariant an entry with no local target and no remote targets
does not stay in the view. -/
def View.remove_local_branch (view : View) (name : String) : View :=
  match lookupA view name with
  | some bt =>
    if bt.remote_targets.isEmpty then eraseA view name
    else insertA view name { bt with local_target := none }
  | none => view

/-- Modelled from the spec: `remove_branch` (library crate, not under
`src/`) removes the branch's entry, local and remote targets alike, from
the view entirely. -/
def View.remove_branch (view : View) (name : String) : View :=
  eraseA view name

/-- The user-facing errors produced by the branch commands (`user_error` and
`user_error_with_hint` from the CLI utility layer). -/
inductive CommandError where
  | userError (msg : String)
  | userErrorWithHint (msg : String) (hint : String)
deriving DecidableEq

/-- UI events emitted by a command, in order: warnings (`ui.warning()`),
plain output (`writeln!(ui, ...)`), and the commit of the one transaction
(`tx.finish`). -/
inductive Event where
  | warning (msg : String)
  | output (msg : String)
  | transaction
deriving DecidableEq

/-- `is_fast_forward`: moving the named branch to `new_target_id` is a
fast-forward move when the branch has no current local target, or when some
commit of the current target's `adds` is an ancestor of the new target. -/
def is_fast_forward (is_ancestor : CommitId → CommitId → Bool) (view : View)
    (branch_name : String) (new_target_id : CommitId) : Bool :=
  match view.get_local_branch branch_name with
  | some current_target =>
    current_target.adds.any (fun add => is_ancestor add new_target_id)
  | none => true

/-- The per-name validation pass of `cmd_branch_create` (the `try_collect`
over `args.names`): the first name that already has a local target aborts
with the already-exists error. -/
def check_create_names (view : View) (names : List String) :
    Except CommandError (List String) :=
  match names with
  | [] => .ok []
  | branch_name :: rest =>
    match view.get_local_branch branch_name with
    | some _ =>
      .error (.userErrorWithHint ("Branch already exists: " ++ branch_name)
        "Use `jj branch set` to update it.")
    | none =>
      match check_create_names view rest with
      | .error e => .error e
      | .ok collected => .ok (branch_name :: collected)

/-- `cmd_branch_create`: validate every name, warn when creating several
branches, then set every name's local target to `Normal(target_commit)`
inside one transaction.  Revision resolution happens in the CLI glue and is
embedded as the already-resolved `target_commit`. -/
def cmd_branch_create (view : View) (names : List String) (target_commit : CommitId) :
    List Event × Except CommandError View :=
  match check_create_names view names with
  | .error e => ([], .error e)
  | .ok branch_names =>
    let warns :=
      if 1 < branch_names.length then
        [Event.warning ("warning: Creating multiple branches ("
          ++ toString branch_names.length ++ ").")]
      else []
    (warns ++ [Event.transaction],
     .ok (branch_names.foldl
       (fun v branch_name =>
         v.set_local_branch branch_name (RefTarget.Normal target_commit)) view))

/-- `cmd_branch_set`: warn when updating several branches, then unless
`allow_backwards` is set refuse the whole operation if any name would move
non-fast-forward; otherwise set every name's local target to
`Normal(target_commit)` inside one transaction. -/
def cmd_branch_set (is_ancestor : CommitId → CommitId → Bool) (view : View)
    (names : List String) (target_commit : CommitId) (allow_backwards : Bool) :
    List Event × Except CommandError View :=
  let warns :=
    if 1 < names.length then
      [Event.warning ("warning: Updating multiple branches ("
        ++ toString names.length ++ ").")]
    else []
  if !allow_backwards
      && !(names.all (fun branch_name =>
            is_fast_forward is_ancestor view branch_name target_commit)) then
    (warns,
     .error (.userErrorWithHint "Refusing to move branch backwards or sideways."
       "Use --allow-backwards to allow it."))
  else
    (warns ++ [Event.transaction],
     .ok (names.foldl
       (fun v branch_name =>
         v.set_local_branch branch_name (RefTarget.Normal target_commit)) view))

/-- The names one glob pattern selects inside `find_globs`: known branch
names satisfying the pattern whose branch has a local target, unless
`allow_deleted` lifts that restriction.  Glob-pattern matching itself is the
external `glob` crate, embedded as the oracle `m`. -/
def glob_matching_names (view : View) (m : String → String → Bool)
    (allow_deleted : Bool) (glob : String) : List String :=
  view.filterMap (fun p =>
    if m glob p.1 && (allow_deleted || p.2.local_target.isSome) then some p.1
    else none)

/-- `find_globs`: match every pattern independently, collecting both the
matched names (possibly with repeats across patterns) and the patterns that
matched nothing; fail naming all failing patterns when there is any. -/
def find_globs (view : View) (globs : List String) (m : String → String → Bool)
    (allow_deleted : Bool) : Except CommandError (List String) :=
  match globs.foldl
      (fun acc glob_str =>
        let names := glob_matching_names view m allow_deleted glob_str
        (acc.1 ++ names, if names.isEmpty then acc.2 ++ [glob_str] else acc.2))
      (([], []) : List String × List String) with
  | (matching_branches, []) => .ok matching_branches
  | (_, [glob]) =>
    .error (.userError ("The provided glob \x27" ++ glob
      ++ "\x27 did not match any branches"))
  | (_, globs2) =>
    .error (.userError ("The provided globs \x27"
      ++ String.intercalate "\x27, \x27" globs2
      ++ "\x27 did not match any branches"))

/-- The failure message of `find_globs`, naming every failing pattern
single-quoted and comma-joined (singular wording for exactly one failing
pattern). -/
def glob_no_match_msg : List String → String
  | [glob] => "The provided glob \x27" ++ glob ++ "\x27 did not match any branches"
  | globs2 => "The provided globs \x27" ++ String.intercalate "\x27, \x27" globs2
      ++ "\x27 did not match any branches"

/-- Ordered insertion without repeats, the building block of the `BTreeSet`
collecting the names a delete/forget touches. -/
def insert_sorted : List String → String → List String
  | [], s => [s]
  | x :: xs, s =>
    match compare s x with
    | .lt => s :: x :: xs
    | .eq => x :: xs
    | .gt => x :: insert_sorted xs s

/-- The `BTreeSet<String>` collected from explicit and globbed names:
deduplicated, in ascending order. -/
def btree_set_of (l : List String) : List String :=
  l.foldl insert_sorted []

/-- The explicit-name validation loop of `cmd_branch_delete`: every explicit
name must currently have a local target. -/
def check_names_have_local (view : View) (names : List String) :
    Except CommandError Unit :=
  match names with
  | [] => .ok ()
  | branch_name :: rest =>
    if (view.get_local_branch branch_name).isNone then
      .error (.userError ("No such branch: " ++ branch_name))
    else check_names_have_local view rest

/-- The explicit-name validation loop of `cmd_branch_forget`: every explicit
name must exist in the view in some form, local or remote. -/
def check_names_exist (view : View) (names : List String) :
    Except CommandError Unit :=
  match names with
  | [] => .ok ()
  | branch_name :: rest =>
    if (view.get_branch branch_name).isNone then
      .error (.userError ("No such branch: " ++ branch_name))
    else check_names_exist view rest

/-- `cmd_branch_delete`: validate the explicit names, resolve the globs with
`allow_deleted = false`, deduplicate the union, clear every selected name's
local target inside one transaction, then report a plural count. -/
def cmd_branch_delete (view : View) (names : List String) (globs : List String)
    (m : String → String → Bool) : List Event × Except CommandError View :=
  match check_names_have_local view names with
  | .error e => ([], .error e)
  | .ok _ =>
    match find_globs view globs m false with
    | .error e => ([], .error e)
    | .ok globbed_names =>
      let ns := btree_set_of (names ++ globbed_names)
      ([Event.transaction] ++
        (if 1 < ns.length then
          [Event.output ("Deleted " ++ toString ns.length ++ " branches.")]
        else []),
       .ok (ns.foldl (fun v branch_name => v.remove_local_branch branch_name) view))

/-- `cmd_branch_forget`: validate the explicit names, resolve the globs with
`allow_deleted = true`, deduplicate the union, remove every selected
branch's entry entirely inside one transaction, then report a plural
count. -/
def cmd_branch_forget (view : View) (names : List String) (globs : List String)
    (m : String → String → Bool) : List Event × Except CommandError View :=
  match check_names_exist view names with
  | .error e => ([], .error e)
  | .ok _ =>
    match find_globs view globs m true with
    | .error e => ([], .error e)
    | .ok globbed_names =>
      let ns := btree_set_of (names ++ globbed_names)
      ([Event.transaction] ++
        (if 1 < ns.length then
          [Event.output ("Forgot " ++ toString ns.length ++ " branches.")]
        else []),
       .ok (ns.foldl (fun v branch_name => v.remove_branch branch_name) view))

/-- The warning `cmd_branch_list` emits when a genuine remote is literally
named `git`. -/
def git_collision_warning (branch_name : String) : String :=
  "WARNING: Branch " ++ branch_name
    ++ " has a remote-tracking branch for a remote named `git`. Local-git tracking branches for it will not be shown.\nIt is recommended to rename that remote, as jj normally reserves the `@git` suffix to denote local-git tracking branches."

/-- One step of the merge loop at the top of `cmd_branch_list`: take the
branch's entry (inserting a default one when absent, as `entry().or_default()`
does); when it already has a remote literally named `git`, warn and skip,
otherwise record the git-tracking target under the `git` remote name. -/
def merge_git_tracking_step (st : View × List Event) (entry : String × RefTarget) :
    View × List Event :=
  let branch_name := entry.1
  let all_branches :=
    if (lookupA st.1 branch_name).isSome then st.1
    else insertA st.1 branch_name default
  let branch_target := (lookupA all_branches branch_name).getD default
  if (lookupA branch_target.remote_targets "git").isSome then
    (all_branches, st.2 ++ [Event.warning (git_collision_warning branch_name)])
  else
    (insertA all_branches branch_name
      { branch_target with
        remote_targets := insertA branch_target.remote_targets "git" entry.2 },
     st.2)

/-- The merge loop at the top of `cmd_branch_list`, folding the synthetic
`git` tracking targets into a copy of the view's branch map.
`git_tracking_branches` itself lives in the library crate and is embedded as
the input association list. -/
def merge_git_tracking (all_branches : View)
    (git_tracking : List (String × RefTarget)) : View × List Event :=
  git_tracking.foldl merge_git_tracking_step (all_branches, [])

/-- Modelled from the spec: `revset::walk_revs` (library crate, not under
`src/`) enumerates the commits reachable from the first set and not
reachable from the second; `univ` is the commit universe of the DAG and
`reach a c` the oracle's "c is reachable from a". -/
def walk_revs (univ : List CommitId) (reach : CommitId → CommitId → Bool)
    (froms : List CommitId) (tos : List CommitId) : List CommitId :=
  univ.filter (fun c =>
    froms.any (fun f => reach f c) && !(tos.any (fun t => reach t c)))

/-- The two divergence counts of `cmd_branch_list` for one remote entry that
differs from the local target: first the remote-ahead count, then the
local-ahead ("behind") count, each from its own `walk_revs` enumeration. -/
def divergence_counts (univ : List CommitId) (reach : CommitId → CommitId → Bool)
    (local_target remote_target : RefTarget) : Nat × Nat :=
  ((walk_revs univ reach remote_target.adds local_target.adds).length,
   (walk_revs univ reach local_target.adds remote_target.adds).length)

/-- The divergence rendering of `cmd_branch_list`: nothing when both counts
are zero, one-sided text when exactly one is positive, combined text when
both are. -/
def render_divergence (remote_ahead_count local_ahead_count : Nat) : Option String :=
  if remote_ahead_count ≠ 0 ∧ local_ahead_count = 0 then
    some (" (ahead by " ++ toString remote_ahead_count ++ " commits)")
  else if remote_ahead_count = 0 ∧ local_ahead_count ≠ 0 then
    some (" (behind by " ++ toString local_ahead_count ++ " commits)")
  else if remote_ahead_count ≠ 0 ∧ local_ahead_count ≠ 0 then
    some (" (ahead by " ++ toString remote_ahead_count ++ " commits, behind by "
      ++ toString local_ahead_count ++ " commits)")
  else none

/-- The operative commit set of a target, stated the way the spec words it:
a branch with a `Normal` target points at that one commit; a conflicted
branch is treated as pointing at all of its `adds` simultaneously. -/
def operative_set : RefTarget → List CommitId
  | .Normal id => [id]
  | .Conflict _ adds => adds

/-- A pattern matches a name, stated the way the spec words it: the name is
a known branch satisfying the glob, and the branch currently has a local
target or `allow_deleted` is set. -/
def pattern_selects (view : View) (m : String → String → Bool)
    (allow_deleted : Bool) (glob name : String) : Bool :=
  match lookupA view name with
  | some bt => m glob name && (allow_deleted || bt.local_target.isSome)
  | none => false

/-! Association-list lemmas shared by the proofs below. -/

theorem lookupA_insertA_self {α : Type} (l : List (String × α)) (k : String) (v : α) :
    lookupA (insertA l k v) k = some v := by
  induction l with
  | nil => simp [insertA, lookupA]
  | cons p rest ih =>
    by_cases h : p.1 = k
    · simp [insertA, h, lookupA]
    · simp [insertA, h, lookupA, ih]

theorem lookupA_insertA_ne {α : Type} (l : List (String × α)) (k k2 : String) (v : α)
    (hne : k2 ≠ k) : lookupA (insertA l k v) k2 = lookupA l k2 := by
  have hk : ¬ k = k2 := fun h => hne h.symm
  induction l with
  | nil => simp [insertA, lookupA, hk]
  | cons p rest ih =>
    by_cases h : p.1 = k
    · have hp : ¬ p.1 = k2 := by rw [h]; exact hk
      simp [insertA, h, lookupA, hk, hp]
    · by_cases h2 : p.1 = k2
      · simp [insertA, h, lookupA, h2, hne]
      · simp [insertA, h, lookupA, h2, ih]

theorem lookupA_eraseA_self {α : Type} (l : List (String × α)) (k : String) :
    lookupA (eraseA l k) k = none := by
  induction l with
  | nil => simp [eraseA, lookupA]
  | cons p rest ih =>
    by_cases h : p.1 = k
    · simp [eraseA, h, ih]
    · simp [eraseA, h, lookupA, ih]

theorem operative_set_eq_adds (t : RefTarget) : operative_set t = t.adds := by
  cases t <;> rfl

/-- C1: `is_fast_forward` permits every move when the branch has no current
local target; otherwise it returns true exactly when some commit of the
current target's operative set is an ancestor of the new commit per the
ancestry oracle. -/
theorem c1_is_fast_forward_correct (is_ancestor : CommitId → CommitId → Bool)
    (view : View) (branch_name : String) (new_target : CommitId) :
    (view.get_local_branch branch_name = none →
      is_fast_forward is_ancestor view branch_name new_target = true) ∧
    (∀ t, view.get_local_branch branch_name = some t →
      (is_fast_forward is_ancestor view branch_name new_target = true ↔
        ∃ c ∈ operative_set t, is_ancestor c new_target = true)) := by
  constructor
  · intro h
    simp [is_fast_forward, h]
  · intro t ht
    simp [is_fast_forward, ht, operative_set_eq_adds, List.any_eq_true]

/-- Witness for C1 at a concrete branch whose local target is `Normal 1`
and a concrete ancestry oracle. -/
theorem c1_witness :
    is_fast_forward (fun a b => decide (a ≤ b))
      [("main", ⟨some (RefTarget.Normal 1), []⟩)] "main" 2 = true :=
  ((c1_is_fast_forward_correct (fun a b => decide (a ≤ b))
      [("main", ⟨some (RefTarget.Normal 1), []⟩)] "main" 2).2
    (RefTarget.Normal 1) (by decide)).mpr ⟨1, by decide, by decide⟩

/-- C10: a branch whose current local target is a conflict with an empty
`adds` sequence is never fast-forward, so a `set` touching it without the
override flag is always refused. -/
theorem c10_empty_conflict_refused (is_ancestor : CommitId → CommitId → Bool)
    (view : View) (branch_name : String) (removes : List CommitId)
    (new_target : CommitId)
    (h : view.get_local_branch branch_name = some (RefTarget.Conflict removes [])) :
    is_fast_forward is_ancestor view branch_name new_target = false ∧
    ∀ names, branch_name ∈ names →
      (cmd_branch_set is_ancestor view names new_target false).2 =
        .error (.userErrorWithHint "Refusing to move branch backwards or sideways."
          "Use --allow-backwards to allow it.") := by
  have hff : is_fast_forward is_ancestor view branch_name new_target = false := by
    simp [is_fast_forward, h, RefTarget.adds]
  refine ⟨hff, ?_⟩
  intro names hmem
  have hall : names.all
      (fun bn => is_fast_forward is_ancestor view bn new_target) = false := by
    rw [Bool.eq_false_iff]
    intro hcontra
    rw [List.all_eq_true] at hcontra
    have := hcontra branch_name hmem
    rw [hff] at this
    exact Bool.false_ne_true this
  simp [cmd_branch_set, hall]

/-- Witness for C10 at a concrete conflicted branch with empty adds. -/
theorem c10_witness :
    is_fast_forward (fun _ _ => true)
      [("x", ⟨some (RefTarget.Conflict [5] []), []⟩)] "x" 9 = false ∧
    (cmd_branch_set (fun _ _ => true)
      [("x", ⟨some (RefTarget.Conflict [5] []), []⟩)] ["x"] 9 false).2 =
      .error (.userErrorWithHint "Refusing to move branch backwards or sideways."
        "Use --allow-backwards to allow it.") :=
  ⟨(c10_empty_conflict_refused (fun _ _ => true)
      [("x", ⟨some (RefTarget.Conflict [5] []), []⟩)] "x" [5] 9 (by decide)).1,
   (c10_empty_conflict_refused (fun _ _ => true)
      [("x", ⟨some (RefTarget.Conflict [5] []), []⟩)] "x" [5] 9 (by decide)).2
     ["x"] (by decide)⟩

/-- C2: a `set` without the override flag on names of which at least one
would move non-fast-forward fails whole with the non-fast-forward error
suggesting the override flag, and no transaction is opened, so no branch
target changes. -/
theorem c2_set_non_fast_forward_fails (is_ancestor : CommitId → CommitId → Bool)
    (view : View) (names : List String) (target_commit : CommitId)
    (hbad : ∃ n ∈ names, is_fast_forward is_ancestor view n target_commit = false) :
    (cmd_branch_set is_ancestor view names target_commit false).2 =
      .error (.userErrorWithHint "Refusing to move branch backwards or sideways."
        "Use --allow-backwards to allow it.") ∧
    Event.transaction ∉ (cmd_branch_set is_ancestor view names target_commit false).1 := by
  obtain ⟨n, hn, hff⟩ := hbad
  have hall : names.all
      (fun bn => is_fast_forward is_ancestor view bn target_commit) = false := by
    rw [Bool.eq_false_iff]
    intro hcontra
    rw [List.all_eq_true] at hcontra
    have := hcontra n hn
    rw [hff] at this
    exact Bool.false_ne_true this
  have heq : cmd_branch_set is_ancestor view names target_commit false =
      ((if 1 < names.length then
          [Event.warning ("warning: Updating multiple branches ("
            ++ toString names.length ++ ").")]
        else []),
       .error (.userErrorWithHint "Refusing to move branch backwards or sideways."
         "Use --allow-backwards to allow it.")) := by
    simp [cmd_branch_set, hall]
  refine ⟨by rw [heq], ?_⟩
  rw [heq]
  by_cases hlen : 1 < names.length <;> simp [hlen]

/-- Witness for C2 at a concrete branch whose move would be sideways. -/
theorem c2_witness :
    (cmd_branch_set (fun _ _ => false)
      [("b", ⟨some (RefTarget.Normal 5), []⟩)] ["b"] 3 false).2 =
      .error (.userErrorWithHint "Refusing to move branch backwards or sideways."
        "Use --allow-backwards to allow it.") ∧
    Event.transaction ∉ (cmd_branch_set (fun _ _ => false)
      [("b", ⟨some (RefTarget.Normal 5), []⟩)] ["b"] 3 false).1 :=
  c2_set_non_fast_forward_fails (fun _ _ => false)
    [("b", ⟨some (RefTarget.Normal 5), []⟩)] ["b"] 3 ⟨"b", by decide, by decide⟩

theorem check_create_names_error (view : View) (names : List String)
    (hex : ∃ n ∈ names, (view.get_local_branch n).isSome) :
    ∃ n ∈ names, (view.get_local_branch n).isSome ∧
      check_create_names view names =
        .error (.userErrorWithHint ("Branch already exists: " ++ n)
          "Use `jj branch set` to update it.") := by
  induction names with
  | nil => simp at hex
  | cons hd tl ih =>
    cases hloc : view.get_local_branch hd with
    | some t =>
      exact ⟨hd, List.mem_cons_self _ _, by simp [hloc],
        by simp [check_create_names, hloc]⟩
    | none =>
      have hex2 : ∃ n ∈ tl, (view.get_local_branch n).isSome := by
        obtain ⟨n, hn, hs⟩ := hex
        rcases List.mem_cons.mp hn with rfl | hmem
        · rw [hloc] at hs
          simp at hs
        · exact ⟨n, hmem, hs⟩
      obtain ⟨n, hn, hs, herr⟩ := ih hex2
      refine ⟨n, List.mem_cons_of_mem _ hn, hs, ?_⟩
      simp [check_create_names, hloc, herr]

/-- C3: a `create` over names of which at least one already has a local
target fails whole with the already-exists error suggesting `set`, and no
event at all is emitted (in particular no transaction), so no branch in the
invocation is created or changed. -/
theorem c3_create_existing_fails (view : View) (names : List String)
    (target_commit : CommitId)
    (hex : ∃ n ∈ names, (view.get_local_branch n).isSome) :
    (∃ n ∈ names, (view.get_local_branch n).isSome ∧
      (cmd_branch_create view names target_commit).2 =
        .error (.userErrorWithHint ("Branch already exists: " ++ n)
          "Use `jj branch set` to update it.")) ∧
    (cmd_branch_create view names target_commit).1 = [] := by
  obtain ⟨n, hn, hs, herr⟩ := check_create_names_error view names hex
  refine ⟨⟨n, hn, hs, ?_⟩, ?_⟩
  · simp [cmd_branch_create, herr]
  · simp [cmd_branch_create, herr]

/-- Witness for C3: creating over an existing branch and a fresh name
fails whole. -/
theorem c3_witness :
    (∃ n ∈ ["a", "c"],
      (View.get_local_branch [("a", ⟨some (RefTarget.Normal 1), []⟩)] n).isSome ∧
      (cmd_branch_create [("a", ⟨some (RefTarget.Normal 1), []⟩)] ["a", "c"] 2).2 =
        .error (.userErrorWithHint ("Branch already exists: " ++ n)
          "Use `jj branch set` to update it.")) ∧
    (cmd_branch_create [("a", ⟨some (RefTarget.Normal 1), []⟩)] ["a", "c"] 2).1 = [] :=
  c3_create_existing_fails [("a", ⟨some (RefTarget.Normal 1), []⟩)] ["a", "c"] 2
    ⟨"a", by decide, by decide⟩

/-- C4: on a branch with both a local target and remote targets, `delete`
leaves the local target absent and the remote-target mapping unchanged,
while `forget` removes the branch's entry from the view entirely. -/
theorem c4_delete_vs_forget (view : View) (m : String → String → Bool)
    (name : String) (bt : BranchTarget) (lt : RefTarget)
    (hlookup : lookupA view name = some bt)
    (hlocal : bt.local_target = some lt)
    (hremote : bt.remote_targets ≠ []) :
    (∃ v1, (cmd_branch_delete view [name] [] m).2 = .ok v1 ∧
      v1.get_local_branch name = none ∧
      (lookupA v1 name).map BranchTarget.remote_targets = some bt.remote_targets) ∧
    (∃ v2, (cmd_branch_forget view [name] [] m).2 = .ok v2 ∧
      lookupA v2 name = none) := by
  have hloc : view.get_local_branch name = some lt := by
    simp [View.get_local_branch, hlookup, hlocal]
  have hremote2 : bt.remote_targets.isEmpty = false := by
    cases hbt : bt.remote_targets with
    | nil => exact absurd hbt hremote
    | cons a l => rfl
  have hdel : View.remove_local_branch view name =
      insertA view name { bt with local_target := none } := by
    simp [View.remove_local_branch, hlookup, hremote2]
  have hdelete_eq : (cmd_branch_delete view [name] [] m).2 =
      .ok (View.remove_local_branch view name) := by
    simp [cmd_branch_delete, check_names_have_local, hloc, find_globs,
      glob_matching_names, btree_set_of, insert_sorted]
  constructor
  · refine ⟨insertA view name { bt with local_target := none }, ?_, ?_, ?_⟩
    · rw [hdelete_eq, hdel]
    · simp [View.get_local_branch, lookupA_insertA_self]
    · simp [lookupA_insertA_self]
  · refine ⟨View.remove_branch view name, ?_, ?_⟩
    · simp [cmd_branch_forget, check_names_exist, View.get_branch, hlookup,
        find_globs, glob_matching_names, btree_set_of, insert_sorted]
    · simp [View.remove_branch, lookupA_eraseA_self]

/-- Witness for C4 at a concrete branch with a local target and one
remote target. -/
theorem c4_witness :
    (∃ v1, (cmd_branch_delete
        [("x", ⟨some (RefTarget.Normal 1), [("origin", RefTarget.Normal 2)]⟩)]
        ["x"] [] (fun _ _ => false)).2 = .ok v1 ∧
      v1.get_local_branch "x" = none ∧
      (lookupA v1 "x").map BranchTarget.remote_targets =
        some [("origin", RefTarget.Normal 2)]) ∧
    (∃ v2, (cmd_branch_forget
        [("x", ⟨some (RefTarget.Normal 1), [("origin", RefTarget.Normal 2)]⟩)]
        ["x"] [] (fun _ _ => false)).2 = .ok v2 ∧
      lookupA v2 "x" = none) :=
  c4_delete_vs_forget
    [("x", ⟨some (RefTarget.Normal 1), [("origin", RefTarget.Normal 2)]⟩)]
    (fun _ _ => false) "x"
    ⟨some (RefTarget.Normal 1), [("origin", RefTarget.Normal 2)]⟩
    (RefTarget.Normal 1) (by decide) (by decide) (by decide)

theorem find_globs_foldl (view : View) (m : String → String → Bool)
    (allow_deleted : Bool) (globs : List String) (m0 f0 : List String) :
    globs.foldl
      (fun acc glob_str =>
        let names := glob_matching_names view m allow_deleted glob_str
        (acc.1 ++ names, if names.isEmpty then acc.2 ++ [glob_str] else acc.2))
      (m0, f0) =
    (m0 ++ globs.flatMap (glob_matching_names view m allow_deleted),
     f0 ++ globs.filter
       (fun g => (glob_matching_names view m allow_deleted g).isEmpty)) := by
  induction globs generalizing m0 f0 with
  | nil => simp
  | cons g gs ih =>
    simp only [List.foldl_cons, List.flatMap_cons, List.filter_cons]
    rw [ih]
    by_cases h : (glob_matching_names view m allow_deleted g).isEmpty = true
    · simp [h, List.append_assoc]
    · simp [h, List.append_assoc]

theorem find_globs_ok (view : View) (m : String → String → Bool)
    (allow_deleted : Bool) (globs : List String)
    (h : globs.filter
      (fun g => (glob_matching_names view m allow_deleted g).isEmpty) = []) :
    find_globs view globs m allow_deleted =
      .ok (globs.flatMap (glob_matching_names view m allow_deleted)) := by
  unfold find_globs
  rw [find_globs_foldl, h]
  rfl

theorem find_globs_error (view : View) (m : String → String → Bool)
    (allow_deleted : Bool) (globs : List String) (failed : List String)
    (h : globs.filter
      (fun g => (glob_matching_names view m allow_deleted g).isEmpty) = failed)
    (hne : failed ≠ []) :
    find_globs view globs m allow_deleted =
      .error (.userError (glob_no_match_msg failed)) := by
  unfold find_globs
  rw [find_globs_foldl, h]
  match failed, hne with
  | [g], _ => rfl
  | g1 :: g2 :: t, _ => rfl

/-- C5: `find_globs` fails exactly when some pattern matches zero branch
names, and on failure the error is the message naming every failing pattern
(single-quoted, comma-joined), so no matched names are returned. -/
theorem c5_find_globs_failure (view : View) (globs : List String)
    (m : String → String → Bool) (allow_deleted : Bool) :
    ((∃ e, find_globs view globs m allow_deleted = .error e) ↔
      ∃ g ∈ globs, glob_matching_names view m allow_deleted g = []) ∧
    ((∃ g ∈ globs, glob_matching_names view m allow_deleted g = []) →
      find_globs view globs m allow_deleted =
        .error (.userError (glob_no_match_msg (globs.filter
          (fun g => (glob_matching_names view m allow_deleted g).isEmpty))))) := by
  have hiff : globs.filter
      (fun g => (glob_matching_names view m allow_deleted g).isEmpty) ≠ [] ↔
      ∃ g ∈ globs, glob_matching_names view m allow_deleted g = [] := by
    rw [Ne, List.filter_eq_nil_iff]
    push_neg
    constructor
    · rintro ⟨g, hg, hemp⟩
      exact ⟨g, hg, List.isEmpty_iff.mp hemp⟩
    · rintro ⟨g, hg, hemp⟩
      exact ⟨g, hg, List.isEmpty_iff.mpr hemp⟩
  constructor
  · constructor
    · rintro ⟨e, he⟩
      refine hiff.mp (fun hnil => ?_)
      rw [find_globs_ok view m allow_deleted globs hnil] at he
      cases he
    · intro h
      exact ⟨_, find_globs_error view m allow_deleted globs _ rfl (hiff.mpr h)⟩
  · intro h
    exact find_globs_error view m allow_deleted globs _ rfl (hiff.mpr h)

/-- Witness for C5: two exact-match patterns that match nothing fail
together, both named in the error. -/
theorem c5_witness :
    find_globs [("feature", ⟨some (RefTarget.Normal 1), []⟩)] ["nope", "zz"]
      (fun g n => g == n) false =
      .error (.userError (glob_no_match_msg
        (["nope", "zz"].filter (fun g =>
          (glob_matching_names [("feature", ⟨some (RefTarget.Normal 1), []⟩)]
            (fun g2 n => g2 == n) false g).isEmpty)))) :=
  by
  refine (c5_find_globs_failure [("feature", ⟨some (RefTarget.Normal 1), []⟩)]
      ["nope", "zz"] (fun g n => g == n) false).2 ⟨"nope", ?_, ?_⟩
  · decide
  · decide

theorem glob_matching_names_cons (p : String × BranchTarget) (view : View)
    (m : String → String → Bool) (allow_deleted : Bool) (g : String) :
    glob_matching_names (p :: view) m allow_deleted g =
      (if m g p.1 && (allow_deleted || p.2.local_target.isSome) then [p.1] else [])
        ++ glob_matching_names view m allow_deleted g := by
  simp only [glob_matching_names, List.filterMap_cons]
  by_cases hc : (m g p.1 && (allow_deleted || p.2.local_target.isSome)) = true
  · rw [if_pos hc, if_pos hc]
    rfl
  · rw [if_neg hc, if_neg hc]
    rfl

theorem glob_matching_names_mem_keys (view : View) (m : String → String → Bool)
    (allow_deleted : Bool) (g name : String)
    (h : name ∈ glob_matching_names view m allow_deleted g) :
    name ∈ view.map Prod.fst := by
  induction view with
  | nil => simp [glob_matching_names] at h
  | cons p rest ih =>
    rw [glob_matching_names_cons] at h
    rcases List.mem_append.mp h with h1 | h2
    · by_cases hc : (m g p.1 && (allow_deleted || p.2.local_target.isSome)) = true
      · rw [if_pos hc] at h1
        simp at h1
        simp [h1]
      · rw [if_neg hc] at h1
        simp at h1
    · exact List.mem_cons_of_mem _ (ih h2)

theorem glob_matching_names_count (view : View) (m : String → String → Bool)
    (allow_deleted : Bool) (g name : String)
    (hnodup : (view.map Prod.fst).Nodup) :
    List.count name (glob_matching_names view m allow_deleted g) =
      if pattern_selects view m allow_deleted g name then 1 else 0 := by
  induction view with
  | nil => simp [glob_matching_names, pattern_selects, lookupA]
  | cons p rest ih =>
    rw [glob_matching_names_cons, List.count_append]
    rw [List.map_cons, List.nodup_cons] at hnodup
    obtain ⟨hnotin, hnodup2⟩ := hnodup
    by_cases hkey : p.1 = name
    · subst hkey
      have hrest0 : List.count p.1 (glob_matching_names rest m allow_deleted g) = 0 := by
        rw [List.count_eq_zero]
        intro hmem
        exact hnotin (glob_matching_names_mem_keys rest m allow_deleted g p.1 hmem)
      have hsel : pattern_selects (p :: rest) m allow_deleted g p.1 =
          (m g p.1 && (allow_deleted || p.2.local_target.isSome)) := by
        simp [pattern_selects, lookupA]
      rw [hsel, hrest0]
      by_cases hc : (m g p.1 && (allow_deleted || p.2.local_target.isSome)) = true
      · simp [hc]
      · simp [hc]
    · have hsel : pattern_selects (p :: rest) m allow_deleted g name =
          pattern_selects rest m allow_deleted g name := by
        simp [pattern_selects, lookupA, hkey]
      have hz : List.count name
          (if m g p.1 && (allow_deleted || p.2.local_target.isSome)
            then [p.1] else []) = 0 := by
        by_cases hc : (m g p.1 && (allow_deleted || p.2.local_target.isSome)) = true
        · rw [if_pos hc, List.count_eq_zero]
          intro hmem
          have heqn : name = p.1 := by simpa using hmem
          exact hkey heqn.symm
        · rw [if_neg hc]
          rfl
      rw [hsel, hz, ih hnodup2, Nat.zero_add]

/-- C6: in a successful `find_globs` result a branch name occurs once per
pattern that selects it, where a pattern selects a name exactly when the
name is a known branch satisfying the glob and the branch has a local
target or `allow_deleted` is set; hence repeats occur when several patterns
match the same name. -/
theorem c6_find_globs_multiplicity (view : View) (globs : List String)
    (m : String → String → Bool) (allow_deleted : Bool) (res : List String)
    (name : String)
    (hnodup : (view.map Prod.fst).Nodup)
    (hok : find_globs view globs m allow_deleted = .ok res) :
    List.count name res =
      (globs.filter (fun g => pattern_selects view m allow_deleted g name)).length := by
  have hfail : globs.filter
      (fun g => (glob_matching_names view m allow_deleted g).isEmpty) = [] := by
    by_contra hne
    rw [find_globs_error view m allow_deleted globs _ rfl hne] at hok
    cases hok
  rw [find_globs_ok view m allow_deleted globs hfail] at hok
  injection hok with h
  rw [← h]
  clear h hfail
  induction globs with
  | nil => simp
  | cons g t ih =>
    rw [List.flatMap_cons, List.count_append,
      glob_matching_names_count view m allow_deleted g name hnodup,
      List.filter_cons, ih]
    by_cases hq : pattern_selects view m allow_deleted g name = true
    · simp [hq, Nat.add_comm]
    · simp [hq]

/-- Witness for C6: two patterns both selecting the one branch put its name
in the result twice. -/
theorem c6_witness :
    List.count "feature"
      (["feature", "feature"] : List String) =
      (["p", "q"].filter (fun g =>
        pattern_selects [("feature", ⟨some (RefTarget.Normal 1), []⟩)]
          (fun _ _ => true) false g "feature")).length :=
  c6_find_globs_multiplicity [("feature", ⟨some (RefTarget.Normal 1), []⟩)]
    ["p", "q"] (fun _ _ => true) false ["feature", "feature"] "feature"
    (by decide) rfl

/-- C7: the ahead count enumerates the commits reachable from the remote's
operative set but not from the local's, the behind count the reverse, each
from its own `walk_revs` enumeration; the rendering shows nothing when both
counts are zero, one side only when exactly that count is positive, and
both sides together when both are positive. -/
theorem c7_divergence_counts (univ : List CommitId)
    (reach : CommitId → CommitId → Bool) (local_target remote_target : RefTarget) :
    (divergence_counts univ reach local_target remote_target).1 =
      (univ.filter (fun c =>
        (operative_set remote_target).any (fun a => reach a c) &&
          !((operative_set local_target).any (fun a => reach a c)))).length ∧
    (divergence_counts univ reach local_target remote_target).2 =
      (univ.filter (fun c =>
        (operative_set local_target).any (fun a => reach a c) &&
          !((operative_set remote_target).any (fun a => reach a c)))).length ∧
    render_divergence 0 0 = none ∧
    (∀ a b : Nat, a ≠ 0 → b = 0 →
      render_divergence a b = some (" (ahead by " ++ toString a ++ " commits)")) ∧
    (∀ a b : Nat, a = 0 → b ≠ 0 →
      render_divergence a b = some (" (behind by " ++ toString b ++ " commits)")) ∧
    (∀ a b : Nat, a ≠ 0 → b ≠ 0 →
      render_divergence a b = some (" (ahead by " ++ toString a
        ++ " commits, behind by " ++ toString b ++ " commits)")) := by
  refine ⟨?_, ?_, ?_, ?_, ?_, ?_⟩
  · simp [divergence_counts, walk_revs, operative_set_eq_adds]
  · simp [divergence_counts, walk_revs, operative_set_eq_adds]
  · simp [render_divergence]
  · intro a b ha hb
    simp [render_divergence, ha, hb]
  · intro a b ha hb
    simp [render_divergence, ha, hb]
  · intro a b ha hb
    simp [render_divergence, ha, hb]

/-- Witness for C7 at a concrete universe and oracle, and a concrete
rendering case. -/
theorem c7_witness :
    (divergence_counts [1, 2] (fun a c => decide (a = c))
        (RefTarget.Normal 1) (RefTarget.Normal 2)).1 =
      ([1, 2].filter (fun c =>
        (operative_set (RefTarget.Normal 2)).any (fun a => decide (a = c)) &&
          !((operative_set (RefTarget.Normal 1)).any (fun a => decide (a = c))))).length ∧
    render_divergence 1 0 = some (" (ahead by " ++ toString (1 : Nat) ++ " commits)") :=
  ⟨(c7_divergence_counts [1, 2] (fun a c => decide (a = c))
      (RefTarget.Normal 1) (RefTarget.Normal 2)).1,
   (c7_divergence_counts [1, 2] (fun a c => decide (a = c))
      (RefTarget.Normal 1) (RefTarget.Normal 2)).2.2.2.1 1 0 (by decide) rfl⟩

theorem merge_step_preserves (name : String) (rt : RefTarget)
    (st : View × List Event) (entry : String × RefTarget)
    (hinv : ∃ bt2, lookupA st.1 name = some bt2 ∧
      lookupA bt2.remote_targets "git" = some rt) :
    (∃ bt2, lookupA (merge_git_tracking_step st entry).1 name = some bt2 ∧
      lookupA bt2.remote_targets "git" = some rt) ∧
    (∀ e ∈ st.2, e ∈ (merge_git_tracking_step st entry).2) ∧
    (entry.1 = name →
      Event.warning (git_collision_warning name) ∈ (merge_git_tracking_step st entry).2) := by
  obtain ⟨bt2, hb, hg⟩ := hinv
  by_cases hkey : entry.1 = name
  · have hlook : lookupA st.1 entry.1 = some bt2 := by rw [hkey]; exact hb
    have hstep : merge_git_tracking_step st entry =
        (st.1, st.2 ++ [Event.warning (git_collision_warning entry.1)]) := by
      simp [merge_git_tracking_step, hlook, hg]
    rw [hstep]
    refine ⟨⟨bt2, hb, hg⟩, ?_, ?_⟩
    · intro e he
      exact List.mem_append_left _ he
    · intro _
      rw [hkey]
      exact List.mem_append_right _ (List.mem_singleton.mpr rfl)
  · have key : lookupA (merge_git_tracking_step st entry).1 name = lookupA st.1 name ∧
        (∀ e ∈ st.2, e ∈ (merge_git_tracking_step st entry).2) := by
      have hne : name ≠ entry.1 := fun h => hkey h.symm
      simp only [merge_git_tracking_step]
      by_cases h1 : (lookupA st.1 entry.1).isSome = true
      · rw [if_pos h1]
        by_cases h2 :
            (lookupA ((lookupA st.1 entry.1).getD default).remote_targets "git").isSome = true
        · rw [if_pos h2]
          exact ⟨rfl, fun e he => List.mem_append_left _ he⟩
        · rw [if_neg h2]
          exact ⟨lookupA_insertA_ne st.1 entry.1 name _ hne, fun e he => he⟩
      · rw [if_neg h1, lookupA_insertA_self]
        rw [if_neg (by decide :
          ¬(lookupA ((some (default : BranchTarget)).getD default).remote_targets
            "git").isSome = true)]
        refine ⟨?_, fun e he => he⟩
        rw [lookupA_insertA_ne _ entry.1 name _ hne,
          lookupA_insertA_ne st.1 entry.1 name _ hne]
    refine ⟨⟨bt2, ?_, hg⟩, key.2, fun h => absurd h hkey⟩
    rw [key.1]
    exact hb

theorem merge_fold_inv (name : String) (rt : RefTarget) :
    ∀ (gitT : List (String × RefTarget)) (vw : View) (ws : List Event),
      (∃ bt2, lookupA vw name = some bt2 ∧ lookupA bt2.remote_targets "git" = some rt) →
      (∃ bt2, lookupA (gitT.foldl merge_git_tracking_step (vw, ws)).1 name = some bt2 ∧
        lookupA bt2.remote_targets "git" = some rt) ∧
      (∀ e ∈ ws, e ∈ (gitT.foldl merge_git_tracking_step (vw, ws)).2) ∧
      (∀ t, (name, t) ∈ gitT →
        Event.warning (git_collision_warning name) ∈
          (gitT.foldl merge_git_tracking_step (vw, ws)).2) := by
  intro gitT
  induction gitT with
  | nil =>
    intro vw ws hinv
    exact ⟨hinv, fun e he => he, fun t ht => absurd ht (List.not_mem_nil _)⟩
  | cons entry rest ih =>
    intro vw ws hinv
    obtain ⟨hinv2, hmono2, hwarn2⟩ := merge_step_preserves name rt (vw, ws) entry hinv
    have ihh := ih (merge_git_tracking_step (vw, ws) entry).1
      (merge_git_tracking_step (vw, ws) entry).2 hinv2
    rw [List.foldl_cons]
    refine ⟨ihh.1, ?_, ?_⟩
    · intro e he
      exact ihh.2.1 e (hmono2 e he)
    · intro t ht
      rcases List.mem_cons.mp ht with heq | hmem

      · exact ihh.2.1 _ (hwarn2 (congrArg Prod.fst heq.symm))
      · exact ihh.2.2 t hmem

/-- C8: merging the synthetic git-tracking targets into the listing view
never overwrites a branch's genuine remote entry literally named `git`:
the branch keeps its existing `git` remote target and a warning is emitted
for it instead. -/
theorem c8_genuine_git_remote_preserved (view : View)
    (git_tracking : List (String × RefTarget)) (name : String) (t : RefTarget)
    (bt : BranchTarget) (rt : RefTarget)
    (hmem : (name, t) ∈ git_tracking)
    (hbt : lookupA view name = some bt)
    (hgit : lookupA bt.remote_targets "git" = some rt) :
    (∃ bt2, lookupA (merge_git_tracking view git_tracking).1 name = some bt2 ∧
      lookupA bt2.remote_targets "git" = some rt) ∧
    Event.warning (git_collision_warning name) ∈
      (merge_git_tracking view git_tracking).2 := by
  have h := merge_fold_inv name rt git_tracking view [] ⟨bt, hbt, hgit⟩
  exact ⟨h.1, h.2.2 t hmem⟩

/-- Witness for C8 at a concrete branch whose `git` remote already exists. -/
theorem c8_witness :
    (∃ bt2, lookupA (merge_git_tracking
        [("x", ⟨some (RefTarget.Normal 1), [("git", RefTarget.Normal 2)]⟩)]
        [("x", RefTarget.Normal 3)]).1 "x" = some bt2 ∧
      lookupA bt2.remote_targets "git" = some (RefTarget.Normal 2)) ∧
    Event.warning (git_collision_warning "x") ∈
      (merge_git_tracking
        [("x", ⟨some (RefTarget.Normal 1), [("git", RefTarget.Normal 2)]⟩)]
        [("x", RefTarget.Normal 3)]).2 :=
  c8_genuine_git_remote_preserved
    [("x", ⟨some (RefTarget.Normal 1), [("git", RefTarget.Normal 2)]⟩)]
    [("x", RefTarget.Normal 3)] "x" (RefTarget.Normal 3)
    ⟨some (RefTarget.Normal 1), [("git", RefTarget.Normal 2)]⟩
    (RefTarget.Normal 2) (by decide) (by decide) (by decide)

theorem check_create_names_ok (view : View) (names : List String)
    (collected : List String)
    (h : check_create_names view names = .ok collected) : collected = names := by
  induction names generalizing collected with
  | nil =>
    simp only [check_create_names] at h
    injection h with h
    exact h.symm
  | cons hd tl ih =>
    simp only [check_create_names] at h
    cases hloc : view.get_local_branch hd with
    | some t =>
      rw [hloc] at h
      cases h
    | none =>
      rw [hloc] at h
      cases hrest : check_create_names view tl with
      | error e =>
        rw [hrest] at h
        cases h
      | ok c2 =>
        rw [hrest] at h
        injection h with h
        rw [← h, ih c2 hrest]

/-- C9 (amended): `create` and `set` emit their plural warning before the
transaction when touching more than one name, without blocking; `delete`
and `forget` instead print their plural count as plain output after the
transaction commits (and only when the deduplicated name set has more than
one element). -/
theorem c9_plural_messages (view : View) (names : List String)
    (target_commit : CommitId) (is_ancestor : CommitId → CommitId → Bool)
    (globs : List String) (m : String → String → Bool)
    (h2 : 1 < names.length) :
    (∀ collected, check_create_names view names = .ok collected →
      (cmd_branch_create view names target_commit).1 =
        [Event.warning ("warning: Creating multiple branches ("
          ++ toString names.length ++ ")."), Event.transaction]) ∧
    (∀ allow_backwards,
      (cmd_branch_set is_ancestor view names target_commit allow_backwards).1.head? =
        some (Event.warning ("warning: Updating multiple branches ("
          ++ toString names.length ++ ")."))) ∧
    (∀ globbed, check_names_have_local view names = .ok () →
      find_globs view globs m false = .ok globbed →
      (cmd_branch_delete view names globs m).1 =
        [Event.transaction] ++
          (if 1 < (btree_set_of (names ++ globbed)).length then
            [Event.output ("Deleted "
              ++ toString (btree_set_of (names ++ globbed)).length ++ " branches.")]
          else [])) ∧
    (∀ globbed, check_names_exist view names = .ok () →
      find_globs view globs m true = .ok globbed →
      (cmd_branch_forget view names globs m).1 =
        [Event.transaction] ++
          (if 1 < (btree_set_of (names ++ globbed)).length then
            [Event.output ("Forgot "
              ++ toString (btree_set_of (names ++ globbed)).length ++ " branches.")]
          else [])) := by
  refine ⟨?_, ?_, ?_, ?_⟩
  · intro collected hok
    have hcoll := check_create_names_ok view names collected hok
    subst hcoll
    simp [cmd_branch_create, hok, h2]
  · intro allow_backwards
    simp only [cmd_branch_set]
    split
    · simp [h2]
    · simp [h2]
  · intro globbed hchk hfg
    simp [cmd_branch_delete, hchk, hfg]
  · intro globbed hchk hfg
    simp [cmd_branch_forget, hchk, hfg]

/-- Witness for C9's amended statement: a two-name `set` has the plural
warning as its first event. -/
theorem c9_witness :
    (cmd_branch_set (fun _ _ => true) [] ["a", "b"] 7 true).1.head? =
      some (Event.warning ("warning: Updating multiple branches ("
        ++ toString (["a", "b"] : List String).length ++ ").")) :=
  (c9_plural_messages [] ["a", "b"] 7 (fun _ _ => true) [] (fun _ _ => false)
    (by decide)).2.1 true

/-- C9 counterexample: a `delete` touching two branch names emits no
warning at all; its plural message is plain output, emitted after the
transaction commits, so the claim's "plural warning before the mutation"
is false for `delete`. -/
theorem c9_counterexample :
    (cmd_branch_delete
        [("a", ⟨some (RefTarget.Normal 1), []⟩), ("b", ⟨some (RefTarget.Normal 2), []⟩)]
        ["a", "b"] [] (fun _ _ => false)).1 =
      [Event.transaction, Event.output "Deleted 2 branches."] ∧
    (cmd_branch_delete
        [("a", ⟨some (RefTarget.Normal 1), []⟩), ("b", ⟨some (RefTarget.Normal 2), []⟩)]
        ["a", "b"] [] (fun _ _ => false)).1.all
      (fun e => match e with | Event.warning _ => false | _ => true) = true := by
  constructor
  · decide
  · decide

end Spec2Proof
